import Mathlib

/-!
# tcprtt example, feature probes: a verification development

Shallow embedding of `examples/tcprtt/main.go` (functions `main`, `readLoop`,
`intToIP`) together with the parts of the Go standard library they call
(`encoding/binary` byte orders, `errors.Is`, `defer`, `log.Fatal`), and of the
capability probe cache exercised by `features/map_test.go` and
`link/syscalls_test.go`.

Machine integers are natural numbers; a `byte` is a number below 256 and a
`uint32` a number below 2^32.
-/

namespace Tcprtt

/-! ## encoding/binary -/

/-- The two byte orders of `encoding/binary`. `internal.NativeEndian` is one of
them, fixed by the build architecture; every definition below that uses it
takes the order as a parameter. -/
inductive ByteOrder
  | LittleEndian
  | BigEndian
deriving DecidableEq, Repr

/-- Go conversion `byte(v)` of an unsigned integer: the low eight bits. -/
def byte (v : Nat) : Nat := v % 256

/-- Go `binary.LittleEndian.PutUint32(b, v)` / `binary.BigEndian.PutUint32(b, v)`:
stores the four bytes of `v` in `b[0..3]`. The bounds check `_ = b[3]` of the
library is not modelled: the only caller passes a slice of length 4. -/
def ByteOrder.PutUint32 : ByteOrder → List Nat → Nat → List Nat
  | .LittleEndian, b, v =>
    (((b.set 0 (byte v)).set 1 (byte (v >>> 8))).set 2 (byte (v >>> 16))).set 3 (byte (v >>> 24))
  | .BigEndian, b, v =>
    (((b.set 0 (byte (v >>> 24))).set 1 (byte (v >>> 16))).set 2 (byte (v >>> 8))).set 3 (byte v)

/-- Go `order.Uint32(b)`: reads `b[0..3]` as a `uint32`; `none` stands for the
index-out-of-range panic on a slice shorter than four bytes. -/
def ByteOrder.Uint32 : ByteOrder → List Nat → Option Nat
  | .LittleEndian, b0 :: b1 :: b2 :: b3 :: _ =>
    some (b0 ||| b1 <<< 8 ||| b2 <<< 16 ||| b3 <<< 24)
  | .BigEndian, b0 :: b1 :: b2 :: b3 :: _ =>
    some (b3 ||| b2 <<< 8 ||| b1 <<< 16 ||| b0 <<< 24)
  | _, _ => none

/-- Go `order.Uint16(b)`. -/
def ByteOrder.Uint16 : ByteOrder → List Nat → Option Nat
  | .LittleEndian, b0 :: b1 :: _ => some (b0 ||| b1 <<< 8)
  | .BigEndian, b0 :: b1 :: _ => some (b1 ||| b0 <<< 8)
  | _, _ => none

/-! ## net.IP and intToIP -/

/-- Go `net.IP`: a byte slice. -/
abbrev IP := List Nat

/-- Source `intToIP`: `ip := make(net.IP, 4)`, then
`internal.NativeEndian.PutUint32(ip, ipNum)`, then `return ip`. -/
def intToIP (NativeEndian : ByteOrder) (ipNum : Nat) : IP :=
  let ip : IP := List.replicate 4 0
  NativeEndian.PutUint32 ip ipNum

/-- Dotted-decimal text of four bytes. -/
def dotted (a b c d : Nat) : String :=
  toString a ++ "." ++ toString b ++ "." ++ toString c ++ "." ++ toString d

/-- Go `net.IP.String()` on the lengths that occur here: the empty slice prints
as `<nil>` and a 4-byte address in dotted decimal. Other lengths (16-byte
addresses, invalid lengths) never reach this program and print as `?`. -/
def IP.String : IP → String
  | [] => "<nil>"
  | [a, b, c, d] => dotted a b c d
  | _ => "?"


/-! ## errors -/

/-- Go error values: a sentinel created once (`errors.New`), or an error that
wraps another one (`fmt.Errorf` with `%w`, `os.SyscallError`, ...). -/
inductive GoError
  | sentinel (name : String)
  | wrap (msg : String) (inner : GoError)
deriving DecidableEq, Repr

/-- Go `err.Error()`. -/
def GoError.Error : GoError → String
  | .sentinel name => name
  | .wrap msg _ => msg

/-- Go `errors.Is(err, target)`: `err` or one of the errors it wraps is `target`. -/
def errorsIs : GoError → GoError → Bool
  | .sentinel name, target => GoError.sentinel name == target
  | .wrap msg inner, target => GoError.wrap msg inner == target || errorsIs inner target

/-- The sentinel `ringbuf.ErrClosed`. -/
def ErrClosed : GoError := .sentinel "ringbuf.ErrClosed"

/-! ## readLoop -/

/-- Go `ringbuf.Record`, of which the loop uses the field `RawSample`. -/
structure Record where
  RawSample : List Nat
deriving DecidableEq, Repr

/-- The two values returned by one call of `rd.Read()`. -/
structure ReadOutcome where
  record : Record
  err : Option GoError
deriving DecidableEq, Repr

/-- The struct `bpfEvent` generated by bpf2go, with the fields the loop prints.
`Saddr` and `Daddr` are `uint32` (they are passed to `intToIP`). -/
structure bpfEvent where
  Sport : Nat
  Dport : Nat
  Saddr : Nat
  Daddr : Nat
  Srtt : Nat
deriving DecidableEq, Repr

/-- One line written through package `log`, tagged with the statement of
`readLoop` that wrote it; the payload is the formatted message. -/
inductive LogEntry
  | exiting (text : String)
  | readError (text : String)
  | parseError (text : String)
  | event (text : String)
deriving DecidableEq, Repr

/-- The verb `%-Ns` / `%-Nd` of package `fmt`: left-justify in a field of
`width` characters, padding with spaces on the right. -/
def padRight (width : Nat) (s : String) : String :=
  s ++ String.mk (List.replicate (width - s.length) ' ')

/-- The event line: `"%-15s %-6d -> %-15s %-6d %-6d"` applied to
`intToIP(event.Saddr)`, `event.Sport`, `intToIP(event.Daddr)`, `event.Dport`,
`event.Srtt`. -/
def formatEvent (NativeEndian : ByteOrder) (event : bpfEvent) : String :=
  padRight 15 (intToIP NativeEndian event.Saddr).String ++ " "
    ++ padRight 6 (toString event.Sport) ++ " -> "
    ++ padRight 15 (intToIP NativeEndian event.Daddr).String ++ " "
    ++ padRight 6 (toString event.Dport) ++ " "
    ++ padRight 6 (toString event.Srtt)

/-- The variables of `readLoop` and what it has done so far. -/
structure LoopState where
  /-- The variable declared by `var event bpfEvent`, before the loop. -/
  event : bpfEvent
  /-- The number of calls of `rd.Read()` issued so far. -/
  reads : Nat
  /-- The lines logged so far, oldest first. -/
  log : List LogEntry
deriving DecidableEq, Repr

/-- The state in which `readLoop` starts. -/
def LoopState.init : LoopState := { event := ⟨0, 0, 0, 0, 0⟩, reads := 0, log := [] }

/-- One pass through the body of the `for` loop of `readLoop`, for a call of
`rd.Read()` that returns `o`. `binaryRead` is
`binary.Read(bytes.NewBuffer(raw), internal.NativeEndian, &event)`; the
declaration of `bpfEvent` is generated code, so the decoder is a parameter.
The flag of the result is `true` when the body executes `return` and `false`
when the loop goes on to its next pass. -/
def iteration (NativeEndian : ByteOrder) (binaryRead : List Nat → Except GoError bpfEvent)
    (o : ReadOutcome) (s : LoopState) : LoopState × Bool :=
  let s := { s with reads := s.reads + 1 }
  match o.err with
  | some err =>
    if errorsIs err ErrClosed then
      ({ s with log := s.log ++ [.exiting "received signal, exiting.."] }, true)
    else
      ({ s with log := s.log ++ [.readError ("reading from reader: " ++ err.Error)] }, false)
  | none =>
    match binaryRead o.record.RawSample with
    | .error err =>
      ({ s with log := s.log ++ [.parseError ("parsing ringbuf event: " ++ err.Error)] }, false)
    | .ok event =>
      ({ s with event := event, log := s.log ++ [.event (formatEvent NativeEndian event)] }, false)

/-- Source `readLoop`, run against a reader whose `k`-th call of `Read`
(counting from 0) returns `rd k`. The first argument bounds the number of
passes; `none` means the loop is still running after that many passes. -/
def readLoop (NativeEndian : ByteOrder) (binaryRead : List Nat → Except GoError bpfEvent)
    (rd : Nat → ReadOutcome) : Nat → LoopState → Option LoopState
  | 0, _ => none
  | fuel + 1, s =>
    match iteration NativeEndian binaryRead (rd s.reads) s with
    | (s', true) => some s'
    | (s', false) => readLoop NativeEndian binaryRead rd fuel s'

/-- Source `readLoop`, run against a finite sequence of `Read` outcomes. The
flag is `true` when the loop has returned; it is `false` when every outcome of
the sequence has been consumed and the loop is about to call `Read` again. -/
def readLoopOn (NativeEndian : ByteOrder) (binaryRead : List Nat → Except GoError bpfEvent) :
    List ReadOutcome → LoopState → LoopState × Bool
  | [], s => (s, false)
  | o :: rest, s =>
    match iteration NativeEndian binaryRead o s with
    | (s', true) => (s', true)
    | (s', false) => readLoopOn NativeEndian binaryRead rest s'

/-- The outcome reports that the reader is closed: its error is non-nil and
matches `ringbuf.ErrClosed`. -/
def ReadOutcome.closed (o : ReadOutcome) : Bool :=
  match o.err with
  | some err => errorsIs err ErrClosed
  | none => false

/-- The event carried by an outcome: it has no error and its `RawSample`
parses. -/
def ReadOutcome.parsed (binaryRead : List Nat → Except GoError bpfEvent) (o : ReadOutcome) :
    Option bpfEvent :=
  match o.err with
  | some _ => none
  | none =>
    match binaryRead o.record.RawSample with
    | .error _ => none
    | .ok event => some event

/-- The messages of the event lines of a log, in order. -/
def eventLines : List LogEntry → List String
  | [] => []
  | .event text :: rest => text :: eventLines rest
  | _ :: rest => eventLines rest

/-- A decoder for records of 16 bytes or more holding, in this order, two
16-bit ports, two 32-bit addresses and a 32-bit round-trip time, as
`binary.Read` decodes a struct of these five fields: fewer bytes than the
struct needs is an error. It serves to evaluate the loop on concrete records. -/
def binaryReadSample (order : ByteOrder) (raw : List Nat) : Except GoError bpfEvent :=
  if raw.length = 0 then .error (.sentinel "EOF")
  else if raw.length < 16 then .error (.sentinel "unexpected EOF")
  else
    match order.Uint16 raw, order.Uint16 (raw.drop 2), order.Uint32 (raw.drop 4),
      order.Uint32 (raw.drop 8), order.Uint32 (raw.drop 12) with
    | some sport, some dport, some saddr, some daddr, some srtt =>
      .ok { Sport := sport, Dport := dport, Saddr := saddr, Daddr := daddr, Srtt := srtt }
    | _, _, _, _, _ => .error (.sentinel "unexpected EOF")

/-- A reader used to evaluate the loop: its first two calls of `Read` fail
with an error other than the closed signal, the third reports an error that
wraps `ringbuf.ErrClosed`, and later calls would deliver an empty record. -/
def sampleReader (k : Nat) : ReadOutcome :=
  if k < 2 then { record := ⟨[]⟩, err := some (.sentinel "EINTR") }
  else if k = 2 then { record := ⟨[]⟩, err := some (.wrap "epoll wait" ErrClosed) }
  else { record := ⟨[]⟩, err := none }

/-! ## main -/

/-- The calls and statements of `main` that are visible from outside, in the
order in which they are executed. -/
inductive Action
  | signalNotify
  | RemoveMemlock
  | loadBpfObjects
  | AttachTracing
  | NewReader
  | logPrintf (text : String)
  | goReadLoop
  | receiveStopper
  | objsClose
  | linkClose
  | rdClose
  | logFatal (text : String)
  | osExit (code : Nat)
deriving DecidableEq, Repr

/-- How a run of `main` ends: it returns, the process exits from inside
`log.Fatal`, or it stays blocked on the channel `stopper`. -/
inductive Exit
  | returned
  | exited (code : Nat)
  | blocked
deriving DecidableEq, Repr

/-- A run of `main`: what it did and how it ended. -/
structure Run where
  trace : List Action
  exit : Exit
deriving DecidableEq, Repr

/-- What the surroundings of `main` answer: the error (or nil) returned by each
of the four fallible calls, and whether a signal is ever delivered on
`stopper`. -/
structure Env where
  RemoveMemlock : Option GoError
  loadBpfObjects : Option GoError
  AttachTracing : Option GoError
  NewReader : Option GoError
  signal : Bool
deriving DecidableEq, Repr

/-- Go `log.Fatal` / `log.Fatalf`: print the message, then `os.Exit(1)`. The
process ends there; functions deferred by the caller are not run. -/
def logFatal (trace : List Action) (text : String) : Run :=
  { trace := trace ++ [.logFatal text, .osExit 1], exit := .exited 1 }

/-- Return from a Go function: the deferred calls run, last deferred first.
`defers` is the stack of deferred calls, the most recent at the head. -/
def goReturn (trace : List Action) (defers : List Action) : Run :=
  { trace := trace ++ defers, exit := .returned }

/-- The header line printed by `main` before the loop starts. -/
def headerLine : String :=
  padRight 15 "Src addr" ++ " " ++ padRight 6 "Port" ++ " -> "
    ++ padRight 15 "Dest addr" ++ " " ++ padRight 6 "Port" ++ " " ++ padRight 6 "RTT"

/-- Source `main`. -/
def main (env : Env) : Run :=
  let trace := [Action.signalNotify, .RemoveMemlock]
  match env.RemoveMemlock with
  | some err => logFatal trace err.Error
  | none =>
  let trace := trace ++ [.loadBpfObjects]
  match env.loadBpfObjects with
  | some err => logFatal trace ("loading objects: " ++ err.Error)
  | none =>
  let defers := [Action.objsClose]
  let trace := trace ++ [.AttachTracing]
  match env.AttachTracing with
  | some err => logFatal trace err.Error
  | none =>
  let defers := Action.linkClose :: defers
  let trace := trace ++ [.NewReader]
  match env.NewReader with
  | some err => logFatal trace ("opening ringbuf reader: " ++ err.Error)
  | none =>
  let defers := Action.rdClose :: defers
  let trace := trace ++ [.logPrintf headerLine, .goReadLoop]
  if env.signal then goReturn (trace ++ [.receiveStopper]) defers
  else { trace := trace, exit := .blocked }

/-- The acquisition calls among the actions of `main`. -/
def Action.isAcquisition : Action → Bool
  | .RemoveMemlock => true
  | .loadBpfObjects => true
  | .AttachTracing => true
  | .NewReader => true
  | _ => false

/-- The cleanup actions among the actions of `main`. -/
def Action.isCleanup : Action → Bool
  | .objsClose => true
  | .linkClose => true
  | .rdClose => true
  | _ => false

/-- The calls of `rd.Read()` made by the process when the reader would answer
`outs`: `Read` is called in `readLoop` only, and `readLoop` runs only as the
goroutine started by the statement `go readLoop(rd)` of `main`. -/
def processReads (NativeEndian : ByteOrder) (binaryRead : List Nat → Except GoError bpfEvent)
    (env : Env) (outs : List ReadOutcome) : Nat :=
  if Action.goReadLoop ∈ (main env).trace then
    (readLoopOn NativeEndian binaryRead outs .init).1.reads
  else 0

end Tcprtt

/-! ## Capability probe cache -/

namespace Features

/-- Modelled from the spec: the probe keys (the probe functions and the
matrices `haveMapTypeMatrix`, `haveMapFlagsMatrix` are not among the sources;
the tests name the probes). A key is a probe kind with its feature variant
(spec §3, ProbeKey). -/
inductive ProbeKey
  | mapType (mt : Nat)
  | mapFlag (flag : Nat)
  | haveProgAttach
  | haveProgAttachReplace
  | haveBPFLink
deriving DecidableEq, Repr

/-- Modelled from the spec: ProbeResult (§3), "one of Supported, Unsupported,
ProbeError(cause)"; the cause is the failure code of the probing syscall. -/
inductive ProbeResult
  | Supported
  | Unsupported
  | ProbeError (cause : Nat)
deriving DecidableEq, Repr

/-- Modelled from the spec: the running kernel as the probe cache sees it
(§4.1). `attempt key` is the minimal kernel operation that tests support for
`key`: `none` when it succeeds, `some code` when it fails with `code`;
`noSuchFeature code` tells whether the code indicates "no such feature/verb". -/
structure Kernel where
  attempt : ProbeKey → Option Nat
  noSuchFeature : Nat → Bool

/-- Modelled from the spec: the classification policy of §4.1, "a failure
whose error code indicates no such feature/verb maps to Unsupported; any other
failure maps to ProbeError". -/
def classify (kernel : Kernel) : Option Nat → ProbeResult
  | none => .Supported
  | some code => if kernel.noSuchFeature code then .Unsupported else .ProbeError code

/-- Modelled from the spec: the probe cache (§4.1, §9), a table of the results
computed so far together with the number of probing syscalls performed. -/
structure ProbeCache where
  table : List (ProbeKey × ProbeResult)
  syscalls : Nat
deriving DecidableEq, Repr

/-- Modelled from the spec: the cache of a process that has probed nothing. -/
def ProbeCache.empty : ProbeCache := { table := [], syscalls := 0 }

/-- Modelled from the spec: the result stored for a key, if any. -/
def ProbeCache.lookup (cache : ProbeCache) (key : ProbeKey) : Option ProbeResult :=
  match cache.table.find? (fun entry => entry.1 == key) with
  | some entry => some entry.2
  | none => none

/-- Modelled from the spec: `Probe(key)` (§4.1). "First call for a given key
executes the minimal kernel operation needed to test support and stores the
result; subsequent calls for the same key return the stored result without any
syscall." -/
def Probe (kernel : Kernel) (cache : ProbeCache) (key : ProbeKey) : ProbeResult × ProbeCache :=
  match cache.lookup key with
  | some result => (result, cache)
  | none =>
    let result := classify kernel (kernel.attempt key)
    (result, { table := (key, result) :: cache.table, syscalls := cache.syscalls + 1 })

/-- Modelled from the spec: the cache of a process after it has probed `keys`,
in this order, starting from nothing. -/
def probeAll (kernel : Kernel) : List ProbeKey → ProbeCache
  | [] => .empty
  | key :: earlier => (Probe kernel (probeAll kernel earlier) key).2

/-- Modelled from the spec: a reference kernel for a declared table of
(key, expected ProbeResult) pairs (§4.1, §8.1) is a kernel on which the probing
operation of every declared key has the declared outcome. -/
def isReferenceKernel (kernel : Kernel) (expected : List (ProbeKey × ProbeResult)) : Bool :=
  expected.all (fun entry => classify kernel (kernel.attempt entry.1) == entry.2)

/-- A kernel used to evaluate the cache: map types up to 30 can be created,
any other map type is refused with code 22, links are refused with code 95,
and code 95 is the code that indicates a missing feature. -/
def sampleKernel : Kernel where
  attempt
    | .mapType mt => if mt ≤ 30 then none else some 22
    | .mapFlag _ => none
    | .haveProgAttach => none
    | .haveProgAttachReplace => none
    | .haveBPFLink => some 95
  noSuchFeature code := code == 95

end Features

namespace Tcprtt

/-! ## Byte-order lemmas -/

theorem lor_shiftLeft_eq_add (x y k : Nat) (hx : x < 2 ^ k) :
    x ||| y <<< k = x + y * 2 ^ k := by
  rw [Nat.shiftLeft_eq, Nat.lor_comm, Nat.mul_comm y, ← Nat.mul_add_lt_is_or hx y]
  omega

theorem uint32_of_bytes_le (a b c d : Nat) (ha : a < 256) (hb : b < 256) (hc : c < 256) :
    a ||| b <<< 8 ||| c <<< 16 ||| d <<< 24 = a + b * 256 + c * 65536 + d * 16777216 := by
  have h1 : a ||| b <<< 8 = a + b * 256 := by
    rw [lor_shiftLeft_eq_add a b 8 (by norm_num; omega)]; norm_num
  have h2 : a + b * 256 ||| c <<< 16 = a + b * 256 + c * 65536 := by
    rw [lor_shiftLeft_eq_add _ c 16 (by norm_num; omega)]; norm_num
  have h3 : a + b * 256 + c * 65536 ||| d <<< 24 = a + b * 256 + c * 65536 + d * 16777216 := by
    rw [lor_shiftLeft_eq_add _ d 24 (by norm_num; omega)]; norm_num
  rw [h1, h2, h3]

theorem putUint32_little (v : Nat) :
    ByteOrder.LittleEndian.PutUint32 [0, 0, 0, 0] v
      = [v % 256, v / 256 % 256, v / 65536 % 256, v / 16777216 % 256] := by
  simp [ByteOrder.PutUint32, byte, Nat.shiftRight_eq_div_pow]

theorem putUint32_big (v : Nat) :
    ByteOrder.BigEndian.PutUint32 [0, 0, 0, 0] v
      = [v / 16777216 % 256, v / 65536 % 256, v / 256 % 256, v % 256] := by
  simp [ByteOrder.PutUint32, byte, Nat.shiftRight_eq_div_pow]

theorem intToIP_eq (order : ByteOrder) (v : Nat) :
    intToIP order v = match order with
      | .LittleEndian => [v % 256, v / 256 % 256, v / 65536 % 256, v / 16777216 % 256]
      | .BigEndian => [v / 16777216 % 256, v / 65536 % 256, v / 256 % 256, v % 256] := by
  cases order
  · exact putUint32_little v
  · exact putUint32_big v


/-! ## intToIP -/

/-- C6: intToIP does not reorder the address bytes. For every four bytes
a, b, c, d and either byte order of the host, if the bytes read as a
native-endian uint32 give n, then intToIP(n) is the 4-byte IP [a, b, c, d],
which prints as a.b.c.d. -/
theorem intToIP_keeps_byte_layout (order : ByteOrder) (a b c d n : Nat)
    (ha : a < 256) (hb : b < 256) (hc : c < 256) (hd : d < 256)
    (hn : order.Uint32 [a, b, c, d] = some n) :
    intToIP order n = [a, b, c, d] ∧ (intToIP order n).String = dotted a b c d := by
  have key : intToIP order n = [a, b, c, d] := by
    rw [intToIP_eq]
    cases order
    · simp only [ByteOrder.Uint32, Option.some.injEq] at hn
      rw [uint32_of_bytes_le a b c d ha hb hc] at hn
      subst hn
      simp only [List.cons.injEq, and_true]
      refine ⟨?_, ?_, ?_, ?_⟩ <;> omega
    · simp only [ByteOrder.Uint32, Option.some.injEq] at hn
      rw [uint32_of_bytes_le d c b a hd hc hb] at hn
      subst hn
      simp only [List.cons.injEq, and_true]
      refine ⟨?_, ?_, ?_, ?_⟩ <;> omega
  rw [key]
  exact ⟨rfl, rfl⟩

theorem intToIP_keeps_byte_layout_witness :
    intToIP .LittleEndian 3439394826 = [10, 0, 1, 205]
      ∧ (intToIP .LittleEndian 3439394826).String = dotted 10 0 1 205 :=
  intToIP_keeps_byte_layout .LittleEndian 10 0 1 205 3439394826
    (by decide) (by decide) (by decide) (by decide) (by decide)

/-- C7: intToIP loses no information. For every uint32 ipNum and either byte
order, intToIP(ipNum) has length exactly 4, reading the four bytes back with
the same byte order yields ipNum, and a uint32 with the same IP is ipNum. -/
theorem intToIP_roundtrip (order : ByteOrder) (ipNum : Nat) (h : ipNum < 2 ^ 32) :
    (intToIP order ipNum).length = 4
      ∧ order.Uint32 (intToIP order ipNum) = some ipNum
      ∧ ∀ other, other < 2 ^ 32 → intToIP order other = intToIP order ipNum → other = ipNum := by
  have hlen : ∀ v, (intToIP order v).length = 4 := by
    intro v; rw [intToIP_eq]; cases order <;> rfl
  have hback : ∀ v, v < 2 ^ 32 → order.Uint32 (intToIP order v) = some v := by
    intro v hv
    rw [intToIP_eq]
    cases order
    · simp only [ByteOrder.Uint32, Option.some.injEq]
      rw [uint32_of_bytes_le _ _ _ _ (Nat.mod_lt _ (by decide)) (Nat.mod_lt _ (by decide))
        (Nat.mod_lt _ (by decide))]
      omega
    · simp only [ByteOrder.Uint32, Option.some.injEq]
      rw [uint32_of_bytes_le _ _ _ _ (Nat.mod_lt _ (by decide)) (Nat.mod_lt _ (by decide))
        (Nat.mod_lt _ (by decide))]
      omega
  refine ⟨hlen ipNum, hback ipNum h, ?_⟩
  intro other hother heq
  have h1 := hback other hother
  rw [heq, hback ipNum h] at h1
  exact (Option.some.inj h1).symm

theorem intToIP_roundtrip_witness :
    167772621 < 2 ^ 32
      ∧ (intToIP .BigEndian 167772621).length = 4
      ∧ ByteOrder.BigEndian.Uint32 (intToIP .BigEndian 167772621) = some 167772621 :=
  ⟨by decide, (intToIP_roundtrip .BigEndian 167772621 (by decide)).1,
    (intToIP_roundtrip .BigEndian 167772621 (by decide)).2.1⟩

/-! ## main: acquisition and cleanup -/

/-- C3: on the normal-return path of main (the memlock limit is lifted, the
three acquisitions succeed and a signal arrives) main returns, and the cleanup
actions it runs are rd.Close, link.Close, objs.Close, once each and in this
order, as the last three actions of the run. -/
theorem main_cleanup_order (env : Env)
    (hmem : env.RemoveMemlock = none) (hload : env.loadBpfObjects = none)
    (hattach : env.AttachTracing = none) (hreader : env.NewReader = none)
    (hsignal : env.signal = true) :
    (main env).exit = .returned
      ∧ (main env).trace.filter Action.isCleanup = [.rdClose, .linkClose, .objsClose]
      ∧ ∃ before, (main env).trace = before ++ [.rdClose, .linkClose, .objsClose]
          ∧ before.filter Action.isCleanup = [] := by
  obtain ⟨m, l, a, r, sg⟩ := env
  simp only at hmem hload hattach hreader hsignal
  subst hmem hload hattach hreader hsignal
  refine ⟨rfl, by decide, ?_⟩
  exact ⟨[.signalNotify, .RemoveMemlock, .loadBpfObjects, .AttachTracing, .NewReader,
    .logPrintf headerLine, .goReadLoop, .receiveStopper], rfl, by decide⟩

theorem main_cleanup_order_witness :
    (main ⟨none, none, none, none, true⟩).exit = .returned
      ∧ (main ⟨none, none, none, none, true⟩).trace.filter Action.isCleanup
          = [.rdClose, .linkClose, .objsClose] :=
  ⟨(main_cleanup_order ⟨none, none, none, none, true⟩ rfl rfl rfl rfl rfl).1,
    (main_cleanup_order ⟨none, none, none, none, true⟩ rfl rfl rfl rfl rfl).2.1⟩

/-- C2 (behaviour of the code at the failing input): when link.AttachTracing
has succeeded and ringbuf.NewReader fails, main leaves through log.Fatalf, the
process exits with status 1, and link.Close is never invoked, although it was
deferred; the same holds for objs.Close. -/
theorem main_reader_failure_skips_link_close (env : Env) (err : GoError)
    (hmem : env.RemoveMemlock = none) (hload : env.loadBpfObjects = none)
    (hattach : env.AttachTracing = none) (hreader : env.NewReader = some err) :
    Action.AttachTracing ∈ (main env).trace
      ∧ (main env).exit = .exited 1
      ∧ (main env).trace.count .linkClose = 0
      ∧ (main env).trace.filter Action.isCleanup = [] := by
  obtain ⟨m, l, a, r, sg⟩ := env
  simp only at hmem hload hattach hreader
  subst hmem hload hattach hreader
  simp [main, logFatal, Action.isCleanup]

theorem main_reader_failure_skips_link_close_witness :
    (main ⟨none, none, none, some (.sentinel "EMFILE"), true⟩).exit = .exited 1
      ∧ (main ⟨none, none, none, some (.sentinel "EMFILE"), true⟩).trace.count .linkClose = 0
      ∧ (main ⟨none, none, none, some (.sentinel "EMFILE"), true⟩).trace.filter
          Action.isCleanup = [] :=
  (main_reader_failure_skips_link_close ⟨none, none, none, some (.sentinel "EMFILE"), true⟩
    (.sentinel "EMFILE") rfl rfl rfl rfl).2

/-- C9: main acquires its resources fail-fast and in a fixed order. The
acquisition calls of a run are an initial part of RemoveMemlock,
loadBpfObjects, AttachTracing, NewReader; if loadBpfObjects fails,
AttachTracing is never called; if AttachTracing fails, NewReader is never
called; if NewReader fails, readLoop is never started; and the process issues
a Read only if load, attach and open all succeeded. -/
theorem main_fail_fast (order : ByteOrder) (binaryRead : List Nat → Except GoError bpfEvent)
    (env : Env) :
    ((main env).trace.filter Action.isAcquisition
        <+: [.RemoveMemlock, .loadBpfObjects, .AttachTracing, .NewReader])
      ∧ (env.loadBpfObjects ≠ none → Action.AttachTracing ∉ (main env).trace)
      ∧ (env.AttachTracing ≠ none → Action.NewReader ∉ (main env).trace)
      ∧ (env.NewReader ≠ none → Action.goReadLoop ∉ (main env).trace)
      ∧ (∀ outs, 0 < processReads order binaryRead env outs →
          env.loadBpfObjects = none ∧ env.AttachTracing = none ∧ env.NewReader = none) := by
  obtain ⟨m, l, a, r, sg⟩ := env
  cases m <;> cases l <;> cases a <;> cases r <;> cases sg <;>
    simp [main, logFatal, goReturn, processReads, Action.isAcquisition, List.prefix_iff_eq_take]

theorem main_fail_fast_witness :
    (main ⟨none, none, some (.sentinel "EPERM"), none, true⟩).trace.filter Action.isAcquisition
        = [.RemoveMemlock, .loadBpfObjects, .AttachTracing]
      ∧ (main ⟨none, none, some (.sentinel "EPERM"), none, true⟩).trace.count .NewReader = 0 := by
  have h := main_fail_fast .LittleEndian (binaryReadSample .LittleEndian)
    ⟨none, none, some (.sentinel "EPERM"), none, true⟩
  exact ⟨by decide, List.count_eq_zero.mpr (h.2.2.1 (by simp))⟩

/-! ## readLoop -/

theorem eventLines_append (xs ys : List LogEntry) :
    eventLines (xs ++ ys) = eventLines xs ++ eventLines ys := by
  induction xs with
  | nil => rfl
  | cons x xs ih => cases x <;> simp [eventLines, ih]

theorem iteration_reads (order : ByteOrder) (binaryRead : List Nat → Except GoError bpfEvent)
    (o : ReadOutcome) (s : LoopState) :
    (iteration order binaryRead o s).1.reads = s.reads + 1 := by
  unfold iteration
  cases o.err with
  | some err => dsimp only; split <;> rfl
  | none => dsimp only; split <;> rfl

theorem iteration_returns (order : ByteOrder) (binaryRead : List Nat → Except GoError bpfEvent)
    (o : ReadOutcome) (s : LoopState) :
    (iteration order binaryRead o s).2 = o.closed := by
  unfold iteration ReadOutcome.closed
  cases o.err with
  | some err => dsimp only; split <;> simp_all
  | none => dsimp only; split <;> rfl

theorem iteration_eventLines (order : ByteOrder)
    (binaryRead : List Nat → Except GoError bpfEvent) (o : ReadOutcome) (s : LoopState) :
    eventLines (iteration order binaryRead o s).1.log
      = eventLines s.log
          ++ (if o.closed then [] else ((o.parsed binaryRead).toList.map (formatEvent order))) := by
  unfold iteration ReadOutcome.closed ReadOutcome.parsed
  cases o.err with
  | some err =>
    dsimp only
    split <;> simp_all [eventLines_append, eventLines]
  | none =>
    dsimp only
    split <;> simp_all [eventLines_append, eventLines]

theorem readLoop_succ (order : ByteOrder) (binaryRead : List Nat → Except GoError bpfEvent)
    (rd : Nat → ReadOutcome) (fuel : Nat) (s : LoopState) :
    readLoop order binaryRead rd (fuel + 1) s
      = if (rd s.reads).closed then some (iteration order binaryRead (rd s.reads) s).1
        else readLoop order binaryRead rd fuel (iteration order binaryRead (rd s.reads) s).1 := by
  have hflag := iteration_returns order binaryRead (rd s.reads) s
  rw [readLoop]
  generalize iteration order binaryRead (rd s.reads) s = p at hflag
  obtain ⟨s', flag⟩ := p
  cases flag <;> simp_all

theorem readLoopOn_cons (order : ByteOrder) (binaryRead : List Nat → Except GoError bpfEvent)
    (o : ReadOutcome) (rest : List ReadOutcome) (s : LoopState) :
    readLoopOn order binaryRead (o :: rest) s
      = if o.closed then ((iteration order binaryRead o s).1, true)
        else readLoopOn order binaryRead rest (iteration order binaryRead o s).1 := by
  have hflag := iteration_returns order binaryRead o s
  rw [readLoopOn]
  generalize iteration order binaryRead o s = p at hflag
  obtain ⟨s', flag⟩ := p
  cases flag <;> simp_all

/-- With enough passes allowed, the loop returns right after the first closed
outcome, having issued one Read per outcome up to and including that one. -/
theorem readLoop_returns_at (order : ByteOrder)
    (binaryRead : List Nat → Except GoError bpfEvent) (rd : Nat → ReadOutcome) :
    ∀ (n fuel : Nat) (s : LoopState),
      (∀ i, i < n → (rd (s.reads + i)).closed = false) →
      (rd (s.reads + n)).closed = true → n < fuel →
      ∃ s', readLoop order binaryRead rd fuel s = some s' ∧ s'.reads = s.reads + n + 1 := by
  intro n
  induction n with
  | zero =>
    intro fuel s _ hclosed hfuel
    obtain ⟨fuel, rfl⟩ : ∃ f, fuel = f + 1 := ⟨fuel - 1, by omega⟩
    rw [readLoop_succ]
    simp only [Nat.add_zero] at hclosed
    simp only [hclosed, if_true]
    exact ⟨_, rfl, by rw [iteration_reads]⟩
  | succ n ih =>
    intro fuel s hopen hclosed hfuel
    obtain ⟨fuel, rfl⟩ : ∃ f, fuel = f + 1 := ⟨fuel - 1, by omega⟩
    have h0 : (rd s.reads).closed = false := by simpa using hopen 0 (by omega)
    rw [readLoop_succ]
    simp only [h0, Bool.false_eq_true, if_false]
    have hreads := iteration_reads order binaryRead (rd s.reads) s
    obtain ⟨s', hs', hr⟩ := ih fuel (iteration order binaryRead (rd s.reads) s).1
      (by
        intro i hi
        rw [hreads, Nat.add_assoc, Nat.add_comm 1 i]
        exact hopen (i + 1) (by omega))
      (by
        rw [hreads, Nat.add_assoc, Nat.add_comm 1 n]
        exact hclosed)
      (by omega)
    exact ⟨s', hs', by rw [hr, hreads]; omega⟩

/-- When the loop returns, the last Read it issued reported the closed signal
and no Read before that one did. -/
theorem readLoop_returned (order : ByteOrder)
    (binaryRead : List Nat → Except GoError bpfEvent) (rd : Nat → ReadOutcome) :
    ∀ (fuel : Nat) (s s' : LoopState), readLoop order binaryRead rd fuel s = some s' →
      s.reads < s'.reads ∧ s'.reads ≤ s.reads + fuel ∧ (rd (s'.reads - 1)).closed = true
        ∧ ∀ i, s.reads ≤ i → i + 1 < s'.reads → (rd i).closed = false := by
  intro fuel
  induction fuel with
  | zero => intro s s' h; simp [readLoop] at h
  | succ fuel ih =>
    intro s s' h
    rw [readLoop_succ] at h
    have hreads := iteration_reads order binaryRead (rd s.reads) s
    by_cases hc : (rd s.reads).closed = true
    · simp only [hc, if_true, Option.some.injEq] at h
      subst h
      rw [hreads]
      refine ⟨by omega, by omega, by simpa using hc, ?_⟩
      intro i h1 h2
      omega
    · simp only [hc, if_false] at h
      obtain ⟨h1, h2, h3, h4⟩ := ih _ _ h
      rw [hreads] at h1 h2 h4
      refine ⟨by omega, by omega, h3, ?_⟩
      intro i hi1 hi2
      by_cases hi : i = s.reads
      · subst hi; simpa using hc
      · exact h4 i (by omega) hi2

/-- The loop on a reader and the loop on the finite sequence of that
reader's first answers are the same computation. -/
theorem readLoop_eq_readLoopOn (order : ByteOrder)
    (binaryRead : List Nat → Except GoError bpfEvent) (rd : Nat → ReadOutcome) :
    ∀ (fuel : Nat) (s : LoopState),
      readLoop order binaryRead rd fuel s
        = if (readLoopOn order binaryRead
              ((List.range fuel).map (fun i => rd (s.reads + i))) s).2
          then some (readLoopOn order binaryRead
              ((List.range fuel).map (fun i => rd (s.reads + i))) s).1
          else none := by
  intro fuel
  induction fuel with
  | zero => intro s; simp [readLoop, readLoopOn]
  | succ fuel ih =>
    intro s
    have hreads := iteration_reads order binaryRead (rd s.reads) s
    have hlist : (List.range fuel).map (fun i => rd (s.reads + (i + 1)))
        = (List.range fuel).map
            (fun i => rd ((iteration order binaryRead (rd s.reads) s).1.reads + i)) := by
      apply List.map_congr_left
      intro i _
      rw [hreads, Nat.add_assoc, Nat.add_comm 1 i]
    rw [readLoop_succ, List.range_succ_eq_map, List.map_cons, List.map_map, readLoopOn_cons]
    simp only [Nat.add_zero]
    by_cases hc : (rd s.reads).closed = true
    · simp [hc]
    · simp only [hc, if_false]
      rw [ih]
      have hcomp : ((fun i => rd (s.reads + i)) ∘ Nat.succ)
          = fun i => rd (s.reads + (i + 1)) := rfl
      rw [hcomp, hlist]
      simp

theorem readLoopOn_eventLines (order : ByteOrder)
    (binaryRead : List Nat → Except GoError bpfEvent) :
    ∀ (outs : List ReadOutcome) (s : LoopState),
      eventLines (readLoopOn order binaryRead outs s).1.log
        = eventLines s.log
            ++ ((outs.takeWhile (fun o => !o.closed)).filterMap
                  (ReadOutcome.parsed binaryRead)).map (formatEvent order) := by
  intro outs
  induction outs with
  | nil => intro s; simp [readLoopOn]
  | cons o rest ih =>
    intro s
    have hstep := iteration_eventLines order binaryRead o s
    rw [readLoopOn_cons]
    by_cases hc : o.closed = true
    · simp only [hc, if_true] at hstep ⊢
      simp [hstep, List.takeWhile_cons, hc]
    · have hc' : o.closed = false := by simpa using hc
      simp only [hc', Bool.false_eq_true, if_false] at hstep ⊢
      rw [ih, hstep, List.takeWhile_cons]
      simp only [hc', Bool.not_false, if_true, List.filterMap_cons]
      cases hp : o.parsed binaryRead <;> simp

/-- C1: readLoop stops exactly at the first closed signal. For every sequence
rd of Read outcomes: if the first outcome matching ringbuf.ErrClosed is the
n-th (counting from 0), readLoop returns having issued exactly n + 1 calls of
Read, one for each earlier outcome and one for the closed one, and none after
it; as long as no outcome so far is closed the loop is still running; and
readLoop returns if and only if some Read reports ErrClosed. -/
theorem readLoop_stops_at_first_closed (order : ByteOrder)
    (binaryRead : List Nat → Except GoError bpfEvent) (rd : Nat → ReadOutcome) :
    (∀ n, (rd n).closed = true → (∀ i, i < n → (rd i).closed = false) →
        ∀ fuel, n < fuel →
          ∃ s, readLoop order binaryRead rd fuel .init = some s ∧ s.reads = n + 1)
      ∧ (∀ fuel, (∀ i, i < fuel → (rd i).closed = false) →
          readLoop order binaryRead rd fuel .init = none)
      ∧ ((∃ fuel s, readLoop order binaryRead rd fuel .init = some s)
          ↔ ∃ n, (rd n).closed = true) := by
  have hret : ∀ n, (rd n).closed = true → (∀ i, i < n → (rd i).closed = false) →
      ∀ fuel, n < fuel →
        ∃ s, readLoop order binaryRead rd fuel .init = some s ∧ s.reads = n + 1 := by
    intro n hclosed hopen fuel hfuel
    obtain ⟨s, hs, hr⟩ := readLoop_returns_at order binaryRead rd n fuel .init
      (by intro i hi; simpa [LoopState.init] using hopen i hi)
      (by simpa [LoopState.init] using hclosed) hfuel
    exact ⟨s, hs, by simpa [LoopState.init] using hr⟩
  refine ⟨hret, ?_, ?_⟩
  · intro fuel hopen
    cases h : readLoop order binaryRead rd fuel .init with
    | none => rfl
    | some s =>
      obtain ⟨h1, h2, h3, _⟩ := readLoop_returned order binaryRead rd fuel _ _ h
      have hlt : s.reads - 1 < fuel := by
        simp only [LoopState.init] at h1 h2
        omega
      rw [hopen _ hlt] at h3
      cases h3
  · constructor
    · rintro ⟨fuel, s, h⟩
      exact ⟨s.reads - 1, (readLoop_returned order binaryRead rd fuel _ _ h).2.2.1⟩
    · intro hex
      have hex' : ∃ n, (rd n).closed = true := hex
      obtain ⟨s, hs, _⟩ := hret (Nat.find hex') (Nat.find_spec hex')
        (by
          intro i hi
          have := Nat.find_min hex' hi
          simpa using this)
        (Nat.find hex' + 1) (by omega)
      exact ⟨_, s, hs⟩

theorem readLoop_stops_at_first_closed_witness :
    (sampleReader 2).closed = true
      ∧ Option.map LoopState.reads
          (readLoop .LittleEndian (binaryReadSample .LittleEndian) sampleReader 5 .init)
          = some 3 := by
  obtain ⟨s, hs, hr⟩ :=
    (readLoop_stops_at_first_closed .LittleEndian (binaryReadSample .LittleEndian)
      sampleReader).1 2 (by decide)
      (by intro i hi; interval_cases i <;> decide) 5 (by decide)
  exact ⟨by decide, by rw [hs, Option.map_some', hr]⟩

/-- C4: readLoop preserves delivery order. For every finite sequence of Read
outcomes, the event lines logged by readLoop are the formatted decodings of
the outcomes before the first ErrClosed that carried no error and whose
RawSample parsed into a bpfEvent, in the same order, none added, dropped or
repeated. -/
theorem readLoop_event_lines_in_order (order : ByteOrder)
    (binaryRead : List Nat → Except GoError bpfEvent) (outs : List ReadOutcome) :
    eventLines (readLoopOn order binaryRead outs .init).1.log
      = ((outs.takeWhile (fun o => !o.closed)).filterMap
            (ReadOutcome.parsed binaryRead)).map (formatEvent order) := by
  rw [readLoopOn_eventLines]
  simp [LoopState.init, eventLines]

end Tcprtt

/-! ## Capability probe cache -/

namespace Features

theorem lookup_cons (key key' : ProbeKey) (result : ProbeResult)
    (table : List (ProbeKey × ProbeResult)) (n m : Nat) :
    ProbeCache.lookup { table := (key', result) :: table, syscalls := n } key
      = if key' = key then some result
        else ProbeCache.lookup { table := table, syscalls := m } key := by
  unfold ProbeCache.lookup
  by_cases h : key' = key
  · simp [List.find?_cons, h]
  · simp [List.find?_cons, h]

/-- After a call of Probe for a key, the cache holds the returned result for
that key. -/
theorem lookup_after_Probe (kernel : Kernel) (cache : ProbeCache) (key : ProbeKey) :
    (Probe kernel cache key).2.lookup key = some (Probe kernel cache key).1 := by
  unfold Probe
  cases h : cache.lookup key with
  | some result => simpa using h
  | none =>
    simp only
    rw [lookup_cons key key _ _ _ 0]
    simp

/-- Every result held by the cache of a process is the classified outcome of
the kernel operation for its key. -/
theorem probeAll_consistent (kernel : Kernel) :
    ∀ (earlier : List ProbeKey) (key : ProbeKey) (result : ProbeResult),
      (probeAll kernel earlier).lookup key = some result →
        result = classify kernel (kernel.attempt key) := by
  intro earlier
  induction earlier with
  | nil =>
    intro key result h
    simp [probeAll, ProbeCache.empty, ProbeCache.lookup] at h
  | cons k earlier ih =>
    intro key result h
    unfold probeAll Probe at h
    cases hk : (probeAll kernel earlier).lookup k with
    | some r =>
      rw [hk] at h
      exact ih key result h
    | none =>
      rw [hk] at h
      simp only at h
      rw [lookup_cons key k _ _ _ (probeAll kernel earlier).syscalls] at h
      by_cases hkk : k = key
      · subst hkk
        simp only [if_true, Option.some.injEq] at h
        exact h.symm
      · simp only [hkk, if_false] at h
        exact ih key result h

theorem Probe_result (kernel : Kernel) (earlier : List ProbeKey) (key : ProbeKey) :
    (Probe kernel (probeAll kernel earlier) key).1 = classify kernel (kernel.attempt key) := by
  unfold Probe
  cases h : (probeAll kernel earlier).lookup key with
  | some result => exact probeAll_consistent kernel earlier key result h
  | none => rfl

/-- The classification policy as seen by a caller, at any point of the life of
the process: a probing operation that fails yields Unsupported when its code
indicates a missing feature and ProbeError with that code otherwise. -/
theorem Probe_failure_classified (kernel : Kernel) (earlier : List ProbeKey) (key : ProbeKey)
    (code : Nat) (hfail : kernel.attempt key = some code) :
    (Probe kernel (probeAll kernel earlier) key).1
      = if kernel.noSuchFeature code then .Unsupported else .ProbeError code := by
  rw [Probe_result, hfail]
  rfl

theorem Probe_cached (kernel : Kernel) (cache : ProbeCache) (key : ProbeKey)
    (result : ProbeResult) (h : cache.lookup key = some result) :
    Probe kernel cache key = (result, cache) := by
  unfold Probe
  rw [h]

/-- C8: for every probe key with a declared expected outcome on a reference
kernel, at any point of the life of the process, Probe(key) equals that
outcome, and a second call for the same key returns the same result, performs
no additional probing syscall and leaves the cache as it is. -/
theorem Probe_declared_outcome_once (kernel : Kernel)
    (expected : List (ProbeKey × ProbeResult)) (earlier : List ProbeKey)
    (key : ProbeKey) (result : ProbeResult)
    (href : isReferenceKernel kernel expected = true) (hdecl : (key, result) ∈ expected) :
    (Probe kernel (probeAll kernel earlier) key).1 = result
      ∧ (Probe kernel (Probe kernel (probeAll kernel earlier) key).2 key).1
          = (Probe kernel (probeAll kernel earlier) key).1
      ∧ (Probe kernel (Probe kernel (probeAll kernel earlier) key).2 key).2.syscalls
          = (Probe kernel (probeAll kernel earlier) key).2.syscalls
      ∧ (Probe kernel (Probe kernel (probeAll kernel earlier) key).2 key).2
          = (Probe kernel (probeAll kernel earlier) key).2 := by
  have hexp : classify kernel (kernel.attempt key) = result := by
    have := (List.all_eq_true.mp href) (key, result) hdecl
    simpa using this
  have hsecond := Probe_cached kernel _ key _ (lookup_after_Probe kernel (probeAll kernel earlier) key)
  refine ⟨by rw [Probe_result, hexp], ?_, ?_, ?_⟩ <;> rw [hsecond]

theorem Probe_declared_outcome_once_witness :
    isReferenceKernel sampleKernel
        [(.mapType 1, .Supported), (.haveBPFLink, .Unsupported)] = true
      ∧ (Probe sampleKernel (probeAll sampleKernel [.mapType 1, .haveProgAttach])
            .haveBPFLink).1 = .Unsupported
      ∧ (Probe sampleKernel (Probe sampleKernel
            (probeAll sampleKernel [.mapType 1, .haveProgAttach]) .haveBPFLink).2
            .haveBPFLink).2.syscalls
          = (Probe sampleKernel (probeAll sampleKernel [.mapType 1, .haveProgAttach])
              .haveBPFLink).2.syscalls := by
  have h := Probe_declared_outcome_once sampleKernel
    [(.mapType 1, .Supported), (.haveBPFLink, .Unsupported)] [.mapType 1, .haveProgAttach]
    .haveBPFLink .Unsupported (by decide) (by decide)
  exact ⟨by decide, h.1, h.2.2.1⟩

end Features
